import Mathlib

/-!
Verification of `keras_cv/utils/preprocessing.py`.

The file embeds the two utility functions of the source file:

* `transform_value_range` — an affine remapping of tensor values from one
  numeric interval to another, computed in a floating-point dtype; and
* `transform` — a thin validation/dispatch wrapper around the external
  `ImageProjectiveTransformV3` operator.

Modelling choices:

* Floating-point values of the compute dtype are modelled exactly by `FVal`:
  a rational number, positive infinity, negative infinity, or NaN, with
  IEEE-754-style arithmetic on the non-finite values (without signed zero).
  Exact rational arithmetic is the "infinite precision" member of the family
  of compute dtypes; casts between numeric dtypes are value-preserving in
  this model.
* A tensor is a shape (list of dimension sizes) together with its flattened
  element data.
* A Python value range is a sequence that is unpacked into two scalars;
  it is modelled as `List ℚ`, and the unpacking failure for a sequence
  whose length is not two is modelled by `Option`.
* A raised Python exception is modelled by `Option`/`Except` results: `none`
  or `Except.error msg` means the function raises instead of returning.
* The external operator `tf.raw_ops.ImageProjectiveTransformV3` is outside
  the repository; `transform` therefore returns the full argument record of
  the delegated call (`ProjectiveCall`) so that properties of the wrapper —
  defaulting, validation, case normalization, forwarding — are statements
  about that record.
-/

namespace KerasCV.Preprocessing

/-- A floating-point value of the compute dtype, modelled exactly: a finite
rational, one of the two infinities, or NaN. -/
inductive FVal where
  | fin (q : ℚ)
  | inf
  | ninf
  | nan
deriving DecidableEq, Repr

/-- A value is finite when it is neither an infinity nor NaN. -/
def FVal.isFinite : FVal → Bool
  | .fin _ => true
  | _ => false

/-- IEEE-style addition on modelled floats. -/
def fadd : FVal → FVal → FVal
  | .fin a, .fin b => .fin (a + b)
  | .nan, _ => .nan
  | _, .nan => .nan
  | .inf, .ninf => .nan
  | .ninf, .inf => .nan
  | .inf, _ => .inf
  | _, .inf => .inf
  | .ninf, _ => .ninf
  | _, .ninf => .ninf

/-- IEEE-style subtraction on modelled floats. -/
def fsub : FVal → FVal → FVal
  | .fin a, .fin b => .fin (a - b)
  | .nan, _ => .nan
  | _, .nan => .nan
  | .inf, .inf => .nan
  | .ninf, .ninf => .nan
  | .inf, _ => .inf
  | .ninf, _ => .ninf
  | _, .inf => .ninf
  | _, .ninf => .inf

/-- IEEE-style multiplication on modelled floats. -/
def fmul : FVal → FVal → FVal
  | .fin a, .fin b => .fin (a * b)
  | .nan, _ => .nan
  | _, .nan => .nan
  | .inf, .inf => .inf
  | .inf, .ninf => .ninf
  | .ninf, .inf => .ninf
  | .ninf, .ninf => .inf
  | .inf, .fin b => if b = 0 then .nan else if 0 < b then .inf else .ninf
  | .fin a, .inf => if a = 0 then .nan else if 0 < a then .inf else .ninf
  | .ninf, .fin b => if b = 0 then .nan else if 0 < b then .ninf else .inf
  | .fin a, .ninf => if a = 0 then .nan else if 0 < a then .ninf else .inf

/-- IEEE-style division on modelled floats: a nonzero finite value divided by
zero gives a signed infinity, zero divided by zero gives NaN (the model has no
signed zero, so the zero divisor counts as positive). -/
def fdiv : FVal → FVal → FVal
  | .fin a, .fin b =>
      if b = 0 then (if a = 0 then .nan else if 0 < a then .inf else .ninf)
      else .fin (a / b)
  | .nan, _ => .nan
  | _, .nan => .nan
  | .inf, .fin b => if 0 ≤ b then .inf else .ninf
  | .ninf, .fin b => if 0 ≤ b then .ninf else .inf
  | .fin _, .inf => .fin 0
  | .fin _, .ninf => .fin 0
  | .inf, .inf => .nan
  | .inf, .ninf => .nan
  | .ninf, .inf => .nan
  | .ninf, .ninf => .nan

/-- Model of `tf.cast` on a single element: casts between numeric dtypes are
value-preserving in the exact model. -/
def fcast (v : FVal) : FVal := v

/-- A tensor: its shape (axis sizes) and its flattened element data. -/
structure Tensor where
  shape : List Nat
  data : List FVal
deriving DecidableEq, Repr

/-- Model of `tf.cast(images, dtype)`: elementwise cast, shape unchanged. -/
def Tensor.cast (t : Tensor) : Tensor :=
  { t with data := t.data.map fcast }

/-- Embedding of `_unwrap_value_range`: the Python statement
`min_value, max_value = value_range` unpacks a sequence into two scalars and
raises unless the sequence has exactly two elements; each scalar is then cast
to the compute dtype. -/
def _unwrap_value_range (value_range : List ℚ) : Option (FVal × FVal) :=
  match value_range with
  | [min_value, max_value] => some (FVal.fin min_value, FVal.fin max_value)
  | _ => none

/-- Embedding of `transform_value_range`: cast the images to the compute
dtype, unpack both ranges, normalize by the original range, then scale and
shift into the target range.  `none` models a raised exception. -/
def transform_value_range (images : Tensor) (original_range target_range : List ℚ) :
    Option Tensor :=
  let images := Tensor.cast images
  match _unwrap_value_range original_range with
  | none => none
  | some (original_min_value, original_max_value) =>
    match _unwrap_value_range target_range with
    | none => none
    | some (target_min_value, target_max_value) =>
      let images := { images with data := images.data.map (fun v =>
        fdiv (fsub v original_min_value) (fsub original_max_value original_min_value)) }
      let scale_factor := fsub target_max_value target_min_value
      some { images with data := images.data.map (fun v =>
        fadd (fmul v scale_factor) target_min_value) }

/-- Model of the Python string method `upper()`: uppercase every character
(the mode strings of interest are plain ASCII). -/
def pyUpper (s : String) : String := ⟨s.data.map Char.toUpper⟩

/-- The argument record of the delegated call to
`tf.raw_ops.ImageProjectiveTransformV3`, exactly as `transform` builds it. -/
structure ProjectiveCall where
  images : Tensor
  output_shape : List Int
  fill_value : FVal
  transforms : List ℚ
  fill_mode : String
  interpolation : String
deriving DecidableEq, Repr

/-- The message of the `ValueError` raised by `transform` for a malformed
`output_shape`; the source formats the offending value into the message. -/
def outputShapeErrMsg (output_shape : List Int) : String :=
  "output_shape must be a 1-D Tensor of 2 elements: new_height, new_width, instead got "
    ++ toString output_shape

/-- Embedding of the `output_shape is None` default: `tf.shape(images)[1:3]`,
the (height, width) slice of the image batch shape. -/
def defaultOutputShape (images : Tensor) : List Int :=
  ((images.shape.drop 1).take 2).map Int.ofNat

/-- Embedding of `transform`: default the output shape to the input's
(height, width) when omitted, validate that it is a 2-element vector (raising
a `ValueError` that formats the offending value otherwise), convert the fill
value to a float scalar, and delegate to `ImageProjectiveTransformV3` with
the fill mode and interpolation uppercased.  The `name` argument only names
the op scope and has no semantic effect.  The result is the delegated call's
argument record; `Except.error` models the raised `ValueError`, produced
before any delegated call exists. -/
def transform (images : Tensor) (transforms : List ℚ) (fill_mode : String)
    (fill_value : ℚ) (interpolation : String) (output_shape : Option (List Int))
    (_name : Option String) : Except String ProjectiveCall :=
  let output_shape := match output_shape with
    | none => defaultOutputShape images
    | some s => s
  if output_shape.length = 2 then
    Except.ok
      { images := images
        output_shape := output_shape
        fill_value := FVal.fin fill_value
        transforms := transforms
        fill_mode := pyUpper fill_mode
        interpolation := pyUpper interpolation }
  else
    Except.error (outputShapeErrMsg output_shape)

/-- Modelled from the spec: the compiled `ImageProjectiveTransformV3` operator
is external to this repository; per the spec's contract the wrapper returns
"a transformed image batch of the requested output shape", i.e. the result
shape is (batch, output_height, output_width, channel) with batch and channel
taken from the input images. -/
def imageProjectiveTransformV3Shape (c : ProjectiveCall) : List Nat :=
  [c.images.shape.headD 0,
   (c.output_shape.headD 0).toNat,
   ((c.output_shape.drop 1).headD 0).toNat,
   (c.images.shape.drop 3).headD 0]

/-!
Helper lemmas shared by the claim theorems.
-/

/-- Subtraction of finite values is finite subtraction. -/
theorem fsub_fin (a b : ℚ) : fsub (.fin a) (.fin b) = .fin (a - b) := rfl

/-- Addition of finite values is finite addition. -/
theorem fadd_fin (a b : ℚ) : fadd (.fin a) (.fin b) = .fin (a + b) := rfl

/-- Multiplication of finite values is finite multiplication. -/
theorem fmul_fin (a b : ℚ) : fmul (.fin a) (.fin b) = .fin (a * b) := rfl

/-- Division of finite values by a nonzero finite value is finite division. -/
theorem fdiv_fin (a b : ℚ) (h : b ≠ 0) : fdiv (.fin a) (.fin b) = .fin (a / b) := by
  simp [fdiv, h]

/-- A value is finite exactly when it is a `fin`. -/
theorem FVal.isFinite_iff {v : FVal} : v.isFinite = true ↔ ∃ q, v = .fin q := by
  cases v <;> simp [FVal.isFinite]

/-- Mapping a function that fixes every member of a list is the identity. -/
theorem map_id_of_forall_mem {α : Type} {l : List α} {f : α → α}
    (h : ∀ a ∈ l, f a = a) : l.map f = l := by
  induction l with
  | nil => rfl
  | cons x xs ih =>
    rw [List.map_cons, h x (List.mem_cons_self x xs),
      ih (fun a ha => h a (List.mem_cons_of_mem x ha))]

/-- Closed form of `transform_value_range` on well-formed 2-element ranges:
it always succeeds, keeps the shape, and maps every element through the
compute-dtype evaluation of the affine remapping expression. -/
theorem transform_value_range_eq (images : Tensor) (o0 o1 t0 t1 : ℚ) :
    transform_value_range images [o0, o1] [t0, t1] =
      some { shape := images.shape
             data := images.data.map (fun v =>
               fadd (fmul (fdiv (fsub (fcast v) (.fin o0)) (fsub (.fin o1) (.fin o0)))
                 (fsub (.fin t1) (.fin t0))) (.fin t0)) } := by
  simp [transform_value_range, Tensor.cast, _unwrap_value_range, List.map_map,
    Function.comp]

/-- The full remap pipeline on a finite element with a non-degenerate original
range is the rational affine formula. -/
theorem remap_fin (v o0 o1 t0 t1 : ℚ) (h : o1 - o0 ≠ 0) :
    fadd (fmul (fdiv (fsub (.fin v) (.fin o0)) (fsub (.fin o1) (.fin o0)))
        (fsub (.fin t1) (.fin t0))) (.fin t0)
      = .fin ((v - o0) / (o1 - o0) * (t1 - t0) + t0) := by
  rw [fsub_fin, fsub_fin, fsub_fin, fdiv_fin _ _ h, fmul_fin, fadd_fin]

/-- Remapping from a range back through the swapped range is the identity on
rationals, for non-degenerate ranges. -/
theorem roundtrip_rat (q a0 a1 b0 b1 : ℚ) (hA : a1 - a0 ≠ 0) (hB : b1 - b0 ≠ 0) :
    ((q - a0) / (a1 - a0) * (b1 - b0) + b0 - b0) / (b1 - b0) * (a1 - a0) + a0 = q := by
  field_simp
  ring

/-- Division of anything by finite zero is non-finite. -/
theorem fdiv_zero_nonfinite (v : FVal) (m : ℚ) :
    (fdiv (fsub v (.fin m)) (.fin 0)).isFinite = false := by
  cases v <;> simp only [fsub, fdiv, FVal.isFinite] <;> split_ifs <;> rfl

/-- Multiplying a non-finite value by a finite one stays non-finite. -/
theorem fmul_fin_nonfinite {w : FVal} (s : ℚ) (h : w.isFinite = false) :
    (fmul w (.fin s)).isFinite = false := by
  cases w with
  | fin q => exact absurd h (by simp [FVal.isFinite])
  | inf => simp only [fmul, FVal.isFinite]; split_ifs <;> rfl
  | ninf => simp only [fmul, FVal.isFinite]; split_ifs <;> rfl
  | nan => rfl

/-- Adding a finite value to a non-finite one stays non-finite. -/
theorem fadd_fin_nonfinite {w : FVal} (t : ℚ) (h : w.isFinite = false) :
    (fadd w (.fin t)).isFinite = false := by
  cases w with
  | fin q => exact absurd h (by simp [FVal.isFinite])
  | inf => rfl
  | ninf => rfl
  | nan => rfl

/-- The remap pipeline with a zero-width original range yields a non-finite
value on every input element, finite or not. -/
theorem remap_degenerate_nonfinite (v : FVal) (m s t : ℚ) :
    (fadd (fmul (fdiv (fsub v (.fin m)) (.fin 0)) (.fin s)) (.fin t)).isFinite = false :=
  fadd_fin_nonfinite t (fmul_fin_nonfinite s (fdiv_zero_nonfinite v m))

/-- Unpacking a value range fails exactly on sequences whose length is not 2. -/
theorem _unwrap_value_range_eq_none {l : List ℚ} (h : l.length ≠ 2) :
    _unwrap_value_range l = none := by
  match l with
  | [] => rfl
  | [a] => rfl
  | [a, b] => exact absurd rfl h
  | a :: b :: c :: rest => rfl

/-!
Claim theorems.
-/

/-- C1: for every images tensor, every 2-element original and target range,
`transform_value_range` returns a tensor of the same shape whose every
element is the compute-dtype evaluation of
`((cast v - orig_min) / (orig_max - orig_min)) * (target_max - target_min) + target_min`,
where v is the corresponding input element.  The exact `FVal` arithmetic is
the model of every numeric compute dtype. -/
theorem transform_value_range_elementwise_affine (images : Tensor) (o0 o1 t0 t1 : ℚ) :
    ∃ out, transform_value_range images [o0, o1] [t0, t1] = some out ∧
      out.shape = images.shape ∧
      out.data = images.data.map (fun v =>
        fadd (fmul (fdiv (fsub (fcast v) (.fin o0)) (fsub (.fin o1) (.fin o0)))
          (fsub (.fin t1) (.fin t0))) (.fin t0)) := by
  rw [transform_value_range_eq]
  exact ⟨_, rfl, rfl, rfl⟩

/-- C2: for every images tensor with finite elements and non-degenerate
ranges A and B, remapping from A to B and then from B back to A returns the
original tensor (exactly, in the exact-arithmetic model of the float
tolerance). -/
theorem transform_value_range_roundtrip (x : Tensor) (a0 a1 b0 b1 : ℚ)
    (hA : a0 ≠ a1) (hB : b0 ≠ b1)
    (hfin : ∀ v ∈ x.data, v.isFinite = true) :
    (transform_value_range x [a0, a1] [b0, b1]).bind
      (fun y => transform_value_range y [b0, b1] [a0, a1]) = some x := by
  have hA' : a1 - a0 ≠ 0 := sub_ne_zero.mpr (Ne.symm hA)
  have hB' : b1 - b0 ≠ 0 := sub_ne_zero.mpr (Ne.symm hB)
  obtain ⟨s, d⟩ := x
  rw [transform_value_range_eq, Option.some_bind, transform_value_range_eq]
  simp only [Option.some.injEq, Tensor.mk.injEq, List.map_map, true_and]
  apply map_id_of_forall_mem
  intro v hv
  obtain ⟨q, rfl⟩ := FVal.isFinite_iff.mp (hfin v hv)
  simp only [Function.comp, fcast, remap_fin _ _ _ _ _ hA', remap_fin _ _ _ _ _ hB']
  rw [roundtrip_rat q a0 a1 b0 b1 hA' hB']

/-- C2 witness: a concrete finite tensor and the ranges [0,1], [0,255]. -/
theorem transform_value_range_roundtrip_witness :
    ((0 : ℚ) ≠ 1 ∧ (0 : ℚ) ≠ 255 ∧
        ∀ v ∈ (Tensor.mk [1] [FVal.fin (1/2)]).data, v.isFinite = true) ∧
      (transform_value_range ⟨[1], [FVal.fin (1/2)]⟩ [0, 1] [0, 255]).bind
        (fun y => transform_value_range y [0, 255] [0, 1]) = some ⟨[1], [FVal.fin (1/2)]⟩ :=
  ⟨⟨by norm_num, by norm_num, by decide⟩,
    transform_value_range_roundtrip ⟨[1], [FVal.fin (1/2)]⟩ 0 1 0 255
      (by norm_num) (by norm_num) (by decide)⟩

/-- C3: for every call to `transform` whose output_shape is not a 2-element
vector, the function returns the ValueError (no delegated call record is
produced) and the error message ends with the offending output_shape value. -/
theorem transform_invalid_output_shape_error (images : Tensor) (tfs : List ℚ)
    (fm : String) (fv : ℚ) (interp : String) (os : List Int) (nm : Option String)
    (h : os.length ≠ 2) :
    transform images tfs fm fv interp (some os) nm = Except.error (outputShapeErrMsg os) ∧
      ∃ s, outputShapeErrMsg os = s ++ toString os := by
  constructor
  · simp [transform, h]
  · exact ⟨_, rfl⟩

/-- C3 witness: a 3-element output_shape. -/
theorem transform_invalid_output_shape_error_witness :
    ([10, 10, 3] : List Int).length ≠ 2 ∧
      (transform ⟨[2, 4, 4, 3], []⟩ [] "reflect" 0 "bilinear" (some [10, 10, 3]) none =
          Except.error (outputShapeErrMsg [10, 10, 3]) ∧
        ∃ s, outputShapeErrMsg [10, 10, 3] = s ++ toString ([10, 10, 3] : List Int)) :=
  ⟨by decide,
    transform_invalid_output_shape_error ⟨[2, 4, 4, 3], []⟩ [] "reflect" 0 "bilinear"
      [10, 10, 3] none (by decide)⟩

/-- C4: for every call to `transform` with output_shape omitted on a batch of
shape (2,10,10,3), the delegated call receives output_shape (10,10) and the
delegated operator (modelled from the spec) returns shape (2,10,10,3). -/
theorem transform_default_output_shape (images : Tensor) (tfs : List ℚ)
    (fm : String) (fv : ℚ) (interp : String) (nm : Option String)
    (h : images.shape = [2, 10, 10, 3]) :
    ∃ c, transform images tfs fm fv interp none nm = Except.ok c ∧
      c.output_shape = [10, 10] ∧
      imageProjectiveTransformV3Shape c = [2, 10, 10, 3] := by
  have hd : defaultOutputShape images = [10, 10] := by
    simp [defaultOutputShape, h]
  refine ⟨{ images := images, output_shape := [10, 10], fill_value := .fin fv,
            transforms := tfs, fill_mode := pyUpper fm,
            interpolation := pyUpper interp }, ?_, rfl, ?_⟩
  · simp [transform, hd]
  · simp [imageProjectiveTransformV3Shape, h]

/-- C4 witness: a concrete tensor of shape (2,10,10,3). -/
theorem transform_default_output_shape_witness :
    (Tensor.mk [2, 10, 10, 3] []).shape = [2, 10, 10, 3] ∧
      ∃ c, transform ⟨[2, 10, 10, 3], []⟩ [] "reflect" 0 "bilinear" none none = Except.ok c ∧
        c.output_shape = [10, 10] ∧
        imageProjectiveTransformV3Shape c = [2, 10, 10, 3] :=
  ⟨rfl, transform_default_output_shape ⟨[2, 10, 10, 3], []⟩ [] "reflect" 0 "bilinear" none rfl⟩

/-- C5: two calls to `transform` that differ only in the case of fill_mode or
interpolation (same uppercasing) produce identical results, because both
strings are uppercased before delegation. -/
theorem transform_case_insensitive_modes (images : Tensor) (tfs : List ℚ) (fv : ℚ)
    (os : Option (List Int)) (nm : Option String) (fm1 fm2 ip1 ip2 : String)
    (hfm : pyUpper fm1 = pyUpper fm2) (hip : pyUpper ip1 = pyUpper ip2) :
    transform images tfs fm1 fv ip1 os nm = transform images tfs fm2 fv ip2 os nm := by
  simp [transform, hfm, hip]

/-- C5 witness: fill_mode "REFLECT" versus "reflect". -/
theorem transform_case_insensitive_modes_witness :
    (pyUpper "REFLECT" = pyUpper "reflect" ∧ pyUpper "bilinear" = pyUpper "bilinear") ∧
      transform ⟨[1, 2, 2, 1], []⟩ [] "REFLECT" 0 "bilinear" none none =
        transform ⟨[1, 2, 2, 1], []⟩ [] "reflect" 0 "bilinear" none none :=
  ⟨⟨by decide, rfl⟩,
    transform_case_insensitive_modes ⟨[1, 2, 2, 1], []⟩ [] 0 none none
      "REFLECT" "reflect" "bilinear" "bilinear" (by decide) rfl⟩

/-- C6: with original_range [0,1] and target_range [0,255], the values 0, 1
and 0.5 map to 0, 255 and 127.5 respectively. -/
theorem transform_value_range_zero_one_to_byte_range :
    transform_value_range ⟨[3], [.fin 0, .fin 1, .fin (1/2)]⟩ [0, 1] [0, 255] =
      some ⟨[3], [.fin 0, .fin 255, .fin (255/2)]⟩ := by
  simp [transform_value_range, Tensor.cast, _unwrap_value_range, fcast, fsub, fdiv,
    fmul, fadd]
  norm_num

/-- C7: remapping with the same non-degenerate range [0,255] as both original
and target returns the images unchanged (exactly, after the value-preserving
cast of the exact model). -/
theorem transform_value_range_same_range_identity (x : Tensor)
    (hfin : ∀ v ∈ x.data, v.isFinite = true) :
    transform_value_range x [0, 255] [0, 255] = some x := by
  obtain ⟨s, d⟩ := x
  rw [transform_value_range_eq]
  simp only [Option.some.injEq, Tensor.mk.injEq, true_and]
  apply map_id_of_forall_mem
  intro v hv
  obtain ⟨q, rfl⟩ := FVal.isFinite_iff.mp (hfin v hv)
  have h255 : (255 : ℚ) - 0 ≠ 0 := by norm_num
  simp only [fcast, remap_fin _ _ _ _ _ h255]
  norm_num

/-- C7 witness: a concrete finite tensor. -/
theorem transform_value_range_same_range_identity_witness :
    (∀ v ∈ (Tensor.mk [1] [FVal.fin 7]).data, v.isFinite = true) ∧
      transform_value_range ⟨[1], [FVal.fin 7]⟩ [0, 255] [0, 255] = some ⟨[1], [FVal.fin 7]⟩ :=
  ⟨by decide, transform_value_range_same_range_identity ⟨[1], [FVal.fin 7]⟩ (by decide)⟩

/-- C8: with a degenerate original range [m,m], `transform_value_range`
returns normally (no error), preserving the shape, and every element of the
result is non-finite (an infinity or NaN produced by the division by zero). -/
theorem transform_value_range_degenerate_range_nonfinite (images : Tensor) (m t0 t1 : ℚ) :
    ∃ out, transform_value_range images [m, m] [t0, t1] = some out ∧
      out.shape = images.shape ∧
      out.data.length = images.data.length ∧
      out.data.all (fun v => ! v.isFinite) = true := by
  rw [transform_value_range_eq]
  refine ⟨_, rfl, rfl, by simp, ?_⟩
  simp only [List.all_eq_true, List.mem_map]
  rintro b ⟨v, hv, rfl⟩
  have hm : fsub (FVal.fin m) (FVal.fin m) = .fin 0 := by
    rw [fsub_fin, sub_self]
  rw [fcast, hm, fsub_fin, remap_degenerate_nonfinite]
  rfl

/-- C9: whenever original_range or target_range does not have exactly two
elements, `transform_value_range` raises during tuple unpacking in
`_unwrap_value_range` (modelled by `none`) instead of computing anything. -/
theorem transform_value_range_bad_range_length_raises (images : Tensor)
    (original_range target_range : List ℚ)
    (h : original_range.length ≠ 2 ∨ target_range.length ≠ 2) :
    transform_value_range images original_range target_range = none := by
  rcases h with h | h
  · simp [transform_value_range, _unwrap_value_range_eq_none h]
  · rw [transform_value_range]
    cases hu : _unwrap_value_range original_range with
    | none => rfl
    | some p =>
      cases p
      simp [_unwrap_value_range_eq_none h]

/-- C9 witness: a 3-element original_range. -/
theorem transform_value_range_bad_range_length_raises_witness :
    (([0, 1, 2] : List ℚ).length ≠ 2 ∨ ([0, 255] : List ℚ).length ≠ 2) ∧
      transform_value_range ⟨[1], [FVal.fin 3]⟩ [0, 1, 2] [0, 255] = none :=
  ⟨Or.inl (by decide),
    transform_value_range_bad_range_length_raises ⟨[1], [FVal.fin 3]⟩ [0, 1, 2] [0, 255]
      (Or.inl (by decide))⟩

/-- C10: the `transform` wrapper performs no validation of fill_mode or
interpolation: for every string values (recognized or not), when the
output_shape is valid the wrapper raises nothing and forwards the uppercased
strings to the delegated operator. -/
theorem transform_forwards_any_mode_strings (images : Tensor) (tfs : List ℚ)
    (fm : String) (fv : ℚ) (ip : String) (os : List Int) (nm : Option String)
    (h : os.length = 2) :
    ∃ c, transform images tfs fm fv ip (some os) nm = Except.ok c ∧
      c.fill_mode = pyUpper fm ∧ c.interpolation = pyUpper ip := by
  refine ⟨{ images := images, output_shape := os, fill_value := .fin fv,
            transforms := tfs, fill_mode := pyUpper fm,
            interpolation := pyUpper ip }, ?_, rfl, rfl⟩
  simp [transform, h]

/-- C10 witness: an unrecognized fill_mode and interpolation are still
forwarded, uppercased, with no local error. -/
theorem transform_forwards_any_mode_strings_witness :
    ([4, 6] : List Int).length = 2 ∧
      ∃ c, transform ⟨[1, 2, 2, 1], []⟩ [] "bogus mode" 0 "whatever" (some [4, 6]) none =
          Except.ok c ∧
        c.fill_mode = pyUpper "bogus mode" ∧ c.interpolation = pyUpper "whatever" :=
  ⟨rfl,
    transform_forwards_any_mode_strings ⟨[1, 2, 2, 1], []⟩ [] "bogus mode" 0 "whatever"
      [4, 6] none rfl⟩

end KerasCV.Preprocessing
